import Mathlib

set_option maxRecDepth 8000

/-!
Shallow embedding of `src/udaq_decoder/decode_hitbuffer.py` (the single source
file of the repository) and proofs about it.

Conventions of the embedding:
* a Python `int` holding a 32-bit little-endian word is a `Nat` (the word
  iterator produced by `struct.iter_unpack` always yields values `< 2^32`;
  theorems that depend on this bound carry it as a hypothesis);
* a Python `dict[int, int]` is a `List (Nat × Nat)` kept in insertion order,
  with `dictInsert` reproducing `d[k] = v` (update in place, else append);
* the word iterator is a `List Nat`; `next(words)` pops the head, and a
  `StopIteration` escaping a decoder is an `Option` returning `none`;
* Python exceptions raised by `decode_hitbuffer` become `Except DecodeError`.
-/

namespace Udaq

/-- Python `dict[int, int]` kept in insertion order. -/
abbrev AdcMap := List (Nat × Nat)

/-- Python `d[k] = v`: if the key is present, update its value in place,
otherwise append the pair at the end. -/
def dictInsert (d : AdcMap) (k v : Nat) : AdcMap :=
  if d.any (fun p => p.1 == k) then
    d.map (fun p => if p.1 == k then (k, v) else p)
  else
    d ++ [(k, v)]

/-- Python `dict_keys` equality (`d1.keys() == d2.keys()`), which compares the
key sets (dict keys are unique, so mutual containment is set equality). -/
def keySetEq (d1 d2 : AdcMap) : Bool :=
  (d1.all fun p => d2.any fun q => q.1 == p.1) &&
  (d2.all fun p => d1.any fun q => q.1 == p.1)

/-- The frame constants of the source file. -/
def OBJECT_CODE_PPS_SECOND : Nat := 0xe0

def OBJECT_CODE_PPS_YEAR : Nat := 0xe4

def OBJECT_CODE_TRIG_CONFIG : Nat := 0xe5

def OBJECT_CODE_DATA_FORMAT : Nat := 0xe6

def OBJECT_CODE_PAGE_END : Nat := 0xe7

def OBJECT_CODE_GENERIC : Nat := 0xf0

def STATUS_CPUTRIG_ACTIVE : Nat := 1 <<< 5

/-- Tagged union of the `RawFrame*` dataclasses. -/
inductive RawFrame where
  | ppsYear (year : Nat)
  | ppsSecond (second : Nat)
  | triggerConf (rc_status mode offset : Nat)
  | dataFormat (subtype detail_bits : Nat)
  | hit (offset tot : Nat) (adc_data : AdcMap)
deriving DecidableEq

/-- Embedding of `_decode_pps_year` (consumes no extra word). -/
def decode_pps_year (header : Nat) : RawFrame :=
  RawFrame.ppsYear (header &&& 0xFFFF)

/-- Embedding of `_decode_pps_second` (consumes no extra word). -/
def decode_pps_second (header : Nat) : RawFrame :=
  RawFrame.ppsSecond (header &&& 0x03ffffff)

/-- Embedding of `_decode_trigger_config`: consumes exactly one extra word
(the offset); `none` models the `StopIteration` of `next(words)` on an
exhausted iterator. -/
def decode_trigger_config (header : Nat) (words : List Nat) :
    Option (RawFrame × List Nat) :=
  match words with
  | [] => none
  | offset :: rest =>
    some (RawFrame.triggerConf (header &&& 0xffff) ((header >>> 16) &&& 0xff) offset, rest)

/-- Embedding of `_decode_data_format` (consumes no extra word). -/
def decode_data_format (header : Nat) : RawFrame :=
  RawFrame.dataFormat ((header >>> 16) &&& 0xff) (header &&& 0xffff)

/-- The `for _ in range(adc_count)` loop of `_decode_hit_tot_adcs`: first
argument is the number of iterations left, then `adc_odd`, `adc_word`, the
word iterator and the accumulated `adc_data` dict.  In each iteration the
register is shifted right 16 bits (odd step) or refilled by `next(words)`
(even step), then a 4-bit index (bits 12-15) and 12-bit value (bits 0-11)
are extracted and stored. -/
def decodeAdcLoop : Nat → Bool → Nat → List Nat → AdcMap → Option (AdcMap × List Nat)
  | 0, _, _, words, adc_data => some (adc_data, words)
  | n + 1, adc_odd, adc_word, words, adc_data =>
    if adc_odd then
      let w := adc_word >>> 16
      decodeAdcLoop n false w words (dictInsert adc_data ((w >>> 12) &&& 0xf) (w &&& 0xfff))
    else
      match words with
      | [] => none
      | w :: rest =>
        decodeAdcLoop n true w rest (dictInsert adc_data ((w >>> 12) &&& 0xf) (w &&& 0xfff))

/-- Embedding of `_decode_hit_tot_adcs`: pops the "multi" word, extracts
`adc_count` (bits 28-31) and `tot` (bits 16-27), seeds the shift register
with `(multi & 0xffff) << 16` and runs the ADC loop starting on an odd
step.  The header word is used verbatim as `offset`. -/
def decode_hit_tot_adcs (header : Nat) (words : List Nat) :
    Option (RawFrame × List Nat) :=
  match words with
  | [] => none
  | multi :: rest =>
    let adc_count := (multi >>> 28) &&& 0xf
    let tot := (multi >>> 16) &&& 0xfff
    match decodeAdcLoop adc_count true ((multi &&& 0xffff) <<< 16) rest [] with
    | none => none
    | some (adc_data, rest') => some (RawFrame.hit header tot adc_data, rest')

/-- Prepend a decoded frame to the result of decoding the remaining words. -/
def consFrame (f : RawFrame) (r : List RawFrame × Bool) : List RawFrame × Bool :=
  (f :: r.1, r.2)

/-- The frame loop of `decode_hitbuffer`, returning the decoded frames and a
flag that is `false` when a decoder ran out of words (the caught
`StopIteration`).  The first argument is fuel presenting the recursion
structurally; every loop iteration consumes at least the header word, so
fuel equal to the word count (as used by `decodeFrames`) is never
exhausted. -/
def decodeFramesAux : Nat → List Nat → List RawFrame × Bool
  | _, [] => ([], true)
  | 0, _ :: _ => ([], true)
  | fuel + 1, header :: words =>
    let frame_type := header >>> 24
    if frame_type = OBJECT_CODE_PPS_YEAR then
      consFrame (decode_pps_year header) (decodeFramesAux fuel words)
    else if frame_type = OBJECT_CODE_PPS_SECOND then
      consFrame (decode_pps_second header) (decodeFramesAux fuel words)
    else if frame_type = OBJECT_CODE_TRIG_CONFIG then
      match decode_trigger_config header words with
      | none => ([], false)
      | some (f, rest) => consFrame f (decodeFramesAux fuel rest)
    else if frame_type = OBJECT_CODE_DATA_FORMAT then
      consFrame (decode_data_format header) (decodeFramesAux fuel words)
    else if frame_type < 0xdfffffff then
      match decode_hit_tot_adcs header words with
      | none => ([], false)
      | some (f, rest) => consFrame f (decodeFramesAux fuel rest)
    else
      decodeFramesAux fuel words

/-- The frame loop of `decode_hitbuffer` on a word list. -/
def decodeFrames (words : List Nat) : List RawFrame × Bool :=
  decodeFramesAux words.length words

/-- Embedding of `resolve_time_10th_ns`.  Python `//` is floor division,
hence `Int.fdiv`; the Python constant `int(1e10)` equals `10000000000`
exactly. -/
def resolve_time_10th_ns (second offset : Int) : Int :=
  second * 10000000000 + Int.fdiv (offset * 125) 36

/-- The output record `Hit` of the source file. -/
structure Hit where
  year : Int
  ns_10th : Int
  adc_data : AdcMap
  tot : Nat
  cpu_trigger : Bool
deriving DecidableEq

/-- The failure modes of `decode_hitbuffer` (in the source: the two
`ValueError`s and the uncaught `StopIteration` of line 125). -/
inductive DecodeError where
  | incompleteFrame
  | inconsistentChannels
  | noHitFrame
deriving DecidableEq

instance {ε α : Type} [DecidableEq ε] [DecidableEq α] : DecidableEq (Except ε α) :=
  fun a b =>
    match a, b with
    | .error x, .error y =>
      match decEq x y with
      | isTrue h => isTrue (by rw [h])
      | isFalse h => isFalse (by intro hc; injection hc; contradiction)
    | .error _, .ok _ => isFalse (by intro hc; exact Except.noConfusion hc)
    | .ok _, .error _ => isFalse (by intro hc; exact Except.noConfusion hc)
    | .ok x, .ok y =>
      match decEq x y with
      | isTrue h => isTrue (by rw [h])
      | isFalse h => isFalse (by intro hc; injection hc; contradiction)

/-- Line 125 of the source:
`next(frame.adc_data.keys() for frame in frames if isinstance(frame, RawFrameHit))`,
i.e. the `adc_data` of the first `RawFrameHit`, or `none` (`StopIteration`)
when no hit frame exists. -/
def firstHitAdc : List RawFrame → Option AdcMap
  | [] => none
  | RawFrame.hit _ _ adc :: _ => some adc
  | _ :: fs => firstHitAdc fs

/-- The combine loop of `decode_hitbuffer` (lines 127-150): fold the frames
threading `year`, `second` and `cpu_trigger`, emitting one output `Hit` per
hit frame whose key set matches the canonical one; a mismatch raises
`InconsistentChannels` when strict and drops the hit when tolerant. -/
def combineFrames : List RawFrame → AdcMap → Bool → Int → Int → Bool →
    Except DecodeError (List Hit)
  | [], _, _, _, _, _ => Except.ok []
  | RawFrame.ppsYear y :: fs, canon, ign, _, second, cpu =>
    combineFrames fs canon ign (Int.ofNat y) second cpu
  | RawFrame.ppsSecond s :: fs, canon, ign, year, _, cpu =>
    combineFrames fs canon ign year (Int.ofNat s) cpu
  | RawFrame.triggerConf rc _ _ :: fs, canon, ign, year, second, _ =>
    combineFrames fs canon ign year second (rc &&& STATUS_CPUTRIG_ACTIVE != 0)
  | RawFrame.dataFormat _ _ :: fs, canon, ign, year, second, cpu =>
    combineFrames fs canon ign year second cpu
  | RawFrame.hit off tot adc :: fs, canon, ign, year, second, cpu =>
    if keySetEq adc canon then
      match combineFrames fs canon ign year second cpu with
      | Except.error e => Except.error e
      | Except.ok hits =>
        Except.ok (⟨year, resolve_time_10th_ns second (Int.ofNat off), adc, tot, cpu⟩ :: hits)
    else if ign then
      combineFrames fs canon ign year second cpu
    else
      Except.error DecodeError.inconsistentChannels

/-- Embedding of `decode_hitbuffer` on the word sequence produced by
`struct.iter_unpack`.  Strict mode turns an exhausted iterator inside a
decoder into `IncompleteFrame`; then the canonical key set is taken from the
first hit frame (`NoHitFrame` if none, in either mode) and the frames are
folded starting from `year = -1`, `second = -1`, `cpu_trigger = false`. -/
def decode_hitbuffer (words : List Nat) (ignore_errors : Bool) :
    Except DecodeError (List Hit) :=
  let r := decodeFrames words
  if !r.2 && !ignore_errors then
    Except.error DecodeError.incompleteFrame
  else
    match firstHitAdc r.1 with
    | none => Except.error DecodeError.noHitFrame
    | some canon => combineFrames r.1 canon ignore_errors (-1) (-1) false

/-- Number of words the ADC loop fetches from the cursor when it runs `n`
iterations starting with parity `odd`: every second iteration fetches,
starting with the second one when `odd` is initially `true`. -/
def fetches (n : Nat) (odd : Bool) : Nat :=
  if odd then n / 2 else (n + 1) / 2

/-- Transcribed from the spec (§4.3), for comparison with the code:
the shift-register loop with an explicit 1-based step counter, shifting on
odd steps and fetching on even steps, extracting a 4-bit channel index
(bits 12-15) and a 12-bit value (bits 0-11) from the current half and
inserting with overwrite-on-duplicate. -/
def specShiftLoop : Nat → Nat → Nat → List Nat → AdcMap → Option (AdcMap × List Nat)
  | 0, _, _, words, acc => some (acc, words)
  | n + 1, step, reg, words, acc =>
    if step % 2 = 1 then
      let reg' := reg >>> 16
      specShiftLoop n (step + 1) reg' words (dictInsert acc ((reg' >>> 12) &&& 0xf) (reg' &&& 0xfff))
    else
      match words with
      | [] => none
      | w :: rest =>
        specShiftLoop n (step + 1) w rest (dictInsert acc ((w >>> 12) &&& 0xf) (w &&& 0xfff))

/-- Transcribed from the spec (§4.3), for comparison with the code: given
header word H (used verbatim as offset) and the next word M, take
`channel_count` from bits 28-31 of M and `tot` from bits 16-27 of M, seed
the shift register with `(M & 0xFFFF) << 16` and run `channel_count` steps
of the shift-register loop starting at step 1 (odd). -/
def specHitDecode (header : Nat) (words : List Nat) : Option (RawFrame × List Nat) :=
  match words with
  | [] => none
  | m :: rest =>
    let channel_count := (m >>> 28) &&& 0xf
    let tot := (m >>> 16) &&& 0xfff
    match specShiftLoop channel_count 1 ((m &&& 0xffff) <<< 16) rest [] with
    | none => none
    | some (acc, rest') => some (RawFrame.hit header tot acc, rest')

/-- Transcribed from the spec (§4.4), for comparison with the code: one step
of the accumulator fold on the state `(year, second, cpu_trigger)`. -/
def specAccumStep : Int × Int × Bool → RawFrame → Int × Int × Bool
  | (_, second, cpu), RawFrame.ppsYear y => (Int.ofNat y, second, cpu)
  | (year, _, cpu), RawFrame.ppsSecond s => (year, Int.ofNat s, cpu)
  | (year, second, _), RawFrame.triggerConf rc _ _ =>
    (year, second, rc &&& STATUS_CPUTRIG_ACTIVE != 0)
  | st, RawFrame.dataFormat _ _ => st
  | st, RawFrame.hit _ _ _ => st

/-- Transcribed from the spec (§4.4), for comparison with the code: the
accumulator fold itself, emitting for each hit frame whose key set matches
the canonical one an output record built from the state values as of this
point in the fold, dropping (tolerant) or failing on (strict) a mismatched
hit, and threading the state with `specAccumStep`. -/
def specCombine : List RawFrame → AdcMap → Bool → Int × Int × Bool →
    Except DecodeError (List Hit)
  | [], _, _, _ => Except.ok []
  | RawFrame.hit off tot adc :: fs, canon, ign, st =>
    if keySetEq adc canon then
      (specCombine fs canon ign (specAccumStep st (RawFrame.hit off tot adc))).map
        (fun hs => ⟨st.1, resolve_time_10th_ns st.2.1 (Int.ofNat off), adc, tot, st.2.2⟩ :: hs)
    else if ign then
      specCombine fs canon ign st
    else
      Except.error DecodeError.inconsistentChannels
  | f :: fs, canon, ign, st => specCombine fs canon ign (specAccumStep st f)

/-- The year recorded by a frame, when it is a PpsYear frame. -/
def ppsYearValue : RawFrame → Option Int
  | RawFrame.ppsYear y => some (Int.ofNat y)
  | _ => none

/-- The second recorded by a frame, when it is a PpsSecond frame. -/
def ppsSecondValue : RawFrame → Option Int
  | RawFrame.ppsSecond s => some (Int.ofNat s)
  | _ => none

/-- The cpu-trigger flag recorded by a frame, when it is a TriggerConfig
frame: bit 5 of its status bits. -/
def trigCpuValue : RawFrame → Option Bool
  | RawFrame.triggerConf rc _ _ => some (rc &&& STATUS_CPUTRIG_ACTIVE != 0)
  | _ => none

/-- A frame survives tolerant-mode folding unless it is a hit frame whose
key set differs from the canonical one. -/
def keepFrame (canon : AdcMap) : RawFrame → Bool
  | RawFrame.hit _ _ adc => keySetEq adc canon
  | _ => true

/-- Transcribed from the claim, for comparison with the code: count the
insertion offsets 1024, 2048, ... while each ``remains within the growing
buffer length'' (each earlier insertion having grown the buffer by two
bytes).  The first argument is fuel presenting the loop structurally; it is
ample at `origLen` since the loop stops once `1022 * j + 1024` reaches
`origLen`. -/
def specKLoop : Nat → Nat → Nat → Nat
  | 0, _, j => j
  | fuel + 1, origLen, j =>
    if 1024 * (j + 1) < origLen + 2 * j then specKLoop fuel origLen (j + 1) else j

/-- Transcribed from the claim: the number of 1024-byte boundaries crossed
under cumulative advancement against the growing buffer. -/
def specCumulativeK (origLen : Nat) : Nat :=
  specKLoop origLen origLen 0

/-- Python `data.insert(i, 0); data.insert(i, 0)`: two zero bytes inserted at
offset `i`. -/
def insertTwoZeros (l : List Nat) (i : Nat) : List Nat :=
  l.take i ++ 0 :: 0 :: l.drop i

/-- Embedding of `fix_hitbuffer_data`.  The Python loop
`for i in range(1024, len(data_raw), 1024)` iterates over the fixed index
list `[1024, 2048, ...]` bounded by the ORIGINAL length (`range` captures
`len(data_raw)` once, before any insertion grows the buffer); that list has
`(len - 1) / 1024` elements.  Afterwards zero bytes are appended until the
length is a multiple of 4. -/
def fix_hitbuffer_data (data : List Nat) : List Nat :=
  let idxs := List.range' 1024 ((data.length - 1) / 1024) 1024
  let inserted := idxs.foldl insertTwoZeros data
  inserted ++ List.replicate ((4 - inserted.length % 4) % 4) 0

/-! ### Helper lemmas -/

theorem decodeAdcLoop_length_le :
    ∀ (n : Nat) (odd : Bool) (w : Nat) (ws : List Nat) (m m' : AdcMap) (ws' : List Nat),
      decodeAdcLoop n odd w ws m = some (m', ws') → ws'.length ≤ ws.length := by
  intro n
  induction n with
  | zero =>
    intro odd w ws m m' ws' h
    simp only [decodeAdcLoop, Option.some.injEq, Prod.mk.injEq] at h
    rw [h.2]
  | succ k ih =>
    intro odd w ws m m' ws' h
    cases odd with
    | true =>
      simp only [decodeAdcLoop, if_true] at h
      exact ih _ _ _ _ _ _ h
    | false =>
      simp only [decodeAdcLoop, Bool.false_eq_true, if_false] at h
      cases ws with
      | nil => exact absurd h (by simp)
      | cons a rest =>
        have := ih _ _ _ _ _ _ h
        simp only [List.length_cons]
        omega

theorem decode_trigger_config_length {header : Nat} {ws : List Nat} {f : RawFrame}
    {rest : List Nat} (h : decode_trigger_config header ws = some (f, rest)) :
    rest.length < ws.length := by
  cases ws with
  | nil => exact absurd h (by simp [decode_trigger_config])
  | cons offset ws2 =>
    simp only [decode_trigger_config, Option.some.injEq, Prod.mk.injEq] at h
    rw [← h.2]
    simp only [List.length_cons]
    omega

theorem decode_hit_tot_adcs_length {header : Nat} {ws : List Nat} {f : RawFrame}
    {rest : List Nat} (h : decode_hit_tot_adcs header ws = some (f, rest)) :
    rest.length < ws.length := by
  cases ws with
  | nil => exact absurd h (by simp [decode_hit_tot_adcs])
  | cons multi ws2 =>
    simp only [decode_hit_tot_adcs] at h
    cases hloop : decodeAdcLoop ((multi >>> 28) &&& 0xf) true ((multi &&& 0xffff) <<< 16) ws2 [] with
    | none => rw [hloop] at h; exact absurd h (by simp)
    | some p =>
      rw [hloop] at h
      cases p with
      | mk m' ws' =>
        simp only [Option.some.injEq, Prod.mk.injEq] at h
        obtain ⟨hf, hr⟩ := h
        have hle := decodeAdcLoop_length_le _ _ _ _ _ _ _ hloop
        rw [← hr]
        simp only [List.length_cons]
        omega

theorem decodeFramesAux_fuel :
    ∀ (fuel : Nat) (ws : List Nat), ws.length ≤ fuel →
      decodeFramesAux fuel ws = decodeFrames ws := by
  intro fuel
  induction fuel using Nat.strong_induction_on with
  | _ fuel ih =>
    intro ws hle
    cases ws with
    | nil => cases fuel <;> rfl
    | cons header tail =>
      cases fuel with
      | zero => exact absurd hle (by simp)
      | succ fuel' =>
        have htail : tail.length ≤ fuel' := by
          simp only [List.length_cons] at hle; omega
        show decodeFramesAux (fuel' + 1) (header :: tail) =
          decodeFramesAux ((header :: tail).length) (header :: tail)
        simp only [List.length_cons]
        simp only [decodeFramesAux]
        split
        · rw [ih fuel' (by omega) tail htail, ih tail.length (by omega) tail (Nat.le_refl _)]
        · split
          · rw [ih fuel' (by omega) tail htail, ih tail.length (by omega) tail (Nat.le_refl _)]
          · split
            · split
              · rfl
              · rename_i f rest heq
                have hlen : rest.length < tail.length := decode_trigger_config_length heq
                rw [ih fuel' (by omega) rest (by omega),
                  ih tail.length (by omega) rest (by omega)]
            · split
              · rw [ih fuel' (by omega) tail htail, ih tail.length (by omega) tail (Nat.le_refl _)]
              · split
                · split
                  · rfl
                  · rename_i f rest heq
                    have hlen : rest.length < tail.length := decode_hit_tot_adcs_length heq
                    rw [ih fuel' (by omega) rest (by omega),
                      ih tail.length (by omega) rest (by omega)]
                · rw [ih fuel' (by omega) tail htail,
                    ih tail.length (by omega) tail (Nat.le_refl _)]

theorem decodeFrames_cons (header : Nat) (ws : List Nat) :
    decodeFrames (header :: ws) =
      (if header >>> 24 = OBJECT_CODE_PPS_YEAR then
        consFrame (decode_pps_year header) (decodeFrames ws)
      else if header >>> 24 = OBJECT_CODE_PPS_SECOND then
        consFrame (decode_pps_second header) (decodeFrames ws)
      else if header >>> 24 = OBJECT_CODE_TRIG_CONFIG then
        match decode_trigger_config header ws with
        | none => ([], false)
        | some (f, rest) => consFrame f (decodeFrames rest)
      else if header >>> 24 = OBJECT_CODE_DATA_FORMAT then
        consFrame (decode_data_format header) (decodeFrames ws)
      else if header >>> 24 < 0xdfffffff then
        match decode_hit_tot_adcs header ws with
        | none => ([], false)
        | some (f, rest) => consFrame f (decodeFrames rest)
      else
        decodeFrames ws) := by
  show decodeFramesAux ((header :: ws).length) (header :: ws) = _
  simp only [List.length_cons]
  simp only [decodeFramesAux]
  split
  · rw [decodeFramesAux_fuel ws.length ws (Nat.le_refl _)]
  · split
    · rw [decodeFramesAux_fuel ws.length ws (Nat.le_refl _)]
    · split
      · split
        · rfl
        · rename_i f rest heq
          have hlen : rest.length < ws.length := decode_trigger_config_length heq
          rw [decodeFramesAux_fuel ws.length rest (by omega)]
      · split
        · rw [decodeFramesAux_fuel ws.length ws (Nat.le_refl _)]
        · split
          · split
            · rfl
            · rename_i f rest heq
              have hlen : rest.length < ws.length := decode_hit_tot_adcs_length heq
              rw [decodeFramesAux_fuel ws.length rest (by omega)]
          · exact decodeFramesAux_fuel ws.length ws (Nat.le_refl _)

/-! ### ADC loop characterization -/

theorem fetches_zero (odd : Bool) : fetches 0 odd = 0 := by
  cases odd <;> rfl

theorem fetches_succ_true (k : Nat) : fetches (k + 1) true = fetches k false := rfl

theorem fetches_succ_false (k : Nat) : fetches (k + 1) false = fetches k true + 1 := by
  simp only [fetches, if_true, Bool.false_eq_true, if_false]
  omega

theorem decodeAdcLoop_drop :
    ∀ (n : Nat) (odd : Bool) (w : Nat) (ws : List Nat) (m m' : AdcMap) (ws' : List Nat),
      decodeAdcLoop n odd w ws m = some (m', ws') → ws' = ws.drop (fetches n odd) := by
  intro n
  induction n with
  | zero =>
    intro odd w ws m m' ws' h
    simp only [decodeAdcLoop, Option.some.injEq, Prod.mk.injEq] at h
    rw [fetches_zero, List.drop_zero]
    exact h.2.symm
  | succ k ih =>
    intro odd w ws m m' ws' h
    cases odd with
    | true =>
      simp only [decodeAdcLoop, if_true] at h
      rw [fetches_succ_true]
      exact ih false _ _ _ _ _ h
    | false =>
      simp only [decodeAdcLoop, Bool.false_eq_true, if_false] at h
      cases ws with
      | nil => exact absurd h (by simp)
      | cons a rest =>
        rw [fetches_succ_false, List.drop_succ_cons]
        exact ih true _ _ _ _ _ h

theorem decodeAdcLoop_ne_none_iff :
    ∀ (n : Nat) (odd : Bool) (w : Nat) (ws : List Nat) (m : AdcMap),
      decodeAdcLoop n odd w ws m ≠ none ↔ fetches n odd ≤ ws.length := by
  intro n
  induction n with
  | zero =>
    intro odd w ws m
    constructor
    · intro _
      rw [fetches_zero]
      exact Nat.zero_le _
    · intro _
      simp [decodeAdcLoop]
  | succ k ih =>
    intro odd w ws m
    cases odd with
    | true =>
      simp only [decodeAdcLoop, if_true]
      rw [ih false, fetches_succ_true]
    | false =>
      simp only [decodeAdcLoop, Bool.false_eq_true, if_false]
      cases ws with
      | nil =>
        simp only [List.length_nil]
        constructor
        · intro h
          exact absurd rfl h
        · intro h
          rw [fetches_succ_false] at h
          omega
      | cons a rest =>
        rw [ih true, fetches_succ_false]
        simp only [List.length_cons]
        omega

theorem specShiftLoop_eq_decodeAdcLoop :
    ∀ (n step w : Nat) (ws : List Nat) (acc : AdcMap),
      specShiftLoop n step w ws acc = decodeAdcLoop n (step % 2 == 1) w ws acc := by
  intro n
  induction n with
  | zero => intro step w ws acc; rfl
  | succ k ih =>
    intro step w ws acc
    rcases Nat.mod_two_eq_zero_or_one step with hp | hp
    · have hb : (step % 2 == 1) = false := by simp [hp]
      have hb' : ((step + 1) % 2 == 1) = true := by
        have h2 : (step + 1) % 2 = 1 := by omega
        simp [h2]
      rw [hb]
      have hstep : specShiftLoop (k + 1) step w ws acc =
          (match ws with
            | [] => none
            | a :: rest =>
              specShiftLoop k (step + 1) a rest
                (dictInsert acc ((a >>> 12) &&& 0xf) (a &&& 0xfff))) := by
        simp only [specShiftLoop]
        rw [if_neg (by omega)]
      rw [hstep]
      cases ws with
      | nil => rfl
      | cons a rest =>
        show specShiftLoop k (step + 1) a rest
            (dictInsert acc ((a >>> 12) &&& 0xf) (a &&& 0xfff)) =
          decodeAdcLoop (k + 1) false w (a :: rest) acc
        rw [ih (step + 1), hb']
        rfl
    · have hb : (step % 2 == 1) = true := by simp [hp]
      have hb' : ((step + 1) % 2 == 1) = false := by
        have h2 : (step + 1) % 2 = 0 := by omega
        simp [h2]
      rw [hb]
      have hstep : specShiftLoop (k + 1) step w ws acc =
          specShiftLoop k (step + 1) (w >>> 16) ws
            (dictInsert acc (((w >>> 16) >>> 12) &&& 0xf) ((w >>> 16) &&& 0xfff)) := by
        simp only [specShiftLoop]
        rw [if_pos hp]
      rw [hstep, ih (step + 1), hb']
      rfl

/-! ### Claims C1 and C2 -/

theorem decode_hit_tot_adcs_eq (header multi : Nat) (ws : List Nat) :
    decode_hit_tot_adcs header (multi :: ws) =
      match decodeAdcLoop ((multi >>> 28) &&& 0xf) true ((multi &&& 0xffff) <<< 16) ws [] with
      | none => none
      | some (adc_data, rest') =>
        some (RawFrame.hit header ((multi >>> 16) &&& 0xfff) adc_data, rest') := rfl

/-- C1 (amended): decoding a Hit frame consumes exactly one extra word M
beyond the header and then exactly floor(n/2) — not ceil(n/2) — further
words from the cursor, where n is the channel count encoded in bits 28-31
of M: the remainder returned on success is the post-M cursor with exactly
n/2 words dropped, and the decode succeeds precisely when n/2 words are
available after M. -/
theorem C1_hit_word_consumption (header multi : Nat) (ws : List Nat) :
    (∀ f rest, decode_hit_tot_adcs header (multi :: ws) = some (f, rest) →
        rest = ws.drop (((multi >>> 28) &&& 0xf) / 2))
    ∧ (decode_hit_tot_adcs header (multi :: ws) ≠ none ↔
        ((multi >>> 28) &&& 0xf) / 2 ≤ ws.length) := by
  have hiff := decodeAdcLoop_ne_none_iff ((multi >>> 28) &&& 0xf) true
    ((multi &&& 0xffff) <<< 16) ws []
  constructor
  · intro f rest h
    rw [decode_hit_tot_adcs_eq] at h
    cases hloop : decodeAdcLoop ((multi >>> 28) &&& 0xf) true ((multi &&& 0xffff) <<< 16) ws [] with
    | none => rw [hloop] at h; exact absurd h (by simp)
    | some p =>
      rw [hloop] at h
      cases p with
      | mk m' ws' =>
        simp only [Option.some.injEq, Prod.mk.injEq] at h
        rw [← h.2]
        exact decodeAdcLoop_drop _ _ _ _ _ _ _ hloop
  · constructor
    · intro h
      rw [decode_hit_tot_adcs_eq] at h
      cases hloop : decodeAdcLoop ((multi >>> 28) &&& 0xf) true ((multi &&& 0xffff) <<< 16) ws [] with
      | none => rw [hloop] at h; exact absurd rfl h
      | some p => exact hiff.mp (by rw [hloop]; exact fun hc => Option.noConfusion hc)
    · intro h
      have hne : decodeAdcLoop ((multi >>> 28) &&& 0xf) true ((multi &&& 0xffff) <<< 16) ws [] ≠ none :=
        hiff.mpr h
      rw [decode_hit_tot_adcs_eq]
      cases hloop : decodeAdcLoop ((multi >>> 28) &&& 0xf) true ((multi &&& 0xffff) <<< 16) ws [] with
      | none => exact absurd hloop hne
      | some p =>
        cases p with
        | mk m' ws' => exact fun hc => Option.noConfusion hc

/-- C1 witness: at header 0, multi word 0x20000000 (channel count 2) and one
further word, the decoder succeeds and consumes exactly 2/2 = 1 word beyond
the multi word. -/
theorem C1_hit_word_consumption_witness :
    ([] : List Nat) = [0xABCD].drop (((0x20000000 >>> 28) &&& 0xf) / 2) ∧
    decode_hit_tot_adcs 0 [0x20000000, 0xABCD] ≠ none := by
  have h := C1_hit_word_consumption 0 0x20000000 [0xABCD]
  exact ⟨h.1 (RawFrame.hit 0 0 [(0, 0), (10, 3021)]) [] (by decide), h.2.mpr (by decide)⟩

/-- C1 counterexample: with channel count n = 1 (multi word 0x10000000) the
decoder succeeds on a one-word tail, consuming only the multi word and zero
further words, whereas the claim demands 1 + ceil(1/2) = 2 consumed words. -/
theorem C1_counterexample :
    decode_hit_tot_adcs 0 [0x10000000] = some (RawFrame.hit 0 0 [(0, 0)], []) ∧
    (1 : Nat) ≠ 1 + (1 + 1) / 2 := by
  exact ⟨by decide, by decide⟩

/-- C2: for every Hit frame the header word is used verbatim as offset,
channel_count is bits 28..31 of the multi word M, tot is bits 16..27 of M,
and the channel mapping (with later duplicate indices overwriting earlier
ones via `dictInsert`) equals the result of the spec's shift-register
algorithm `specHitDecode`: seed the register with (M & 0xFFFF) << 16, then
alternately shift right 16 bits (odd steps, starting with the first) or
fetch a new word, extracting a 4-bit channel index (bits 12-15) and a
12-bit value (bits 0-11) each step. -/
theorem C2_hit_decoding_matches_spec (header : Nat) (ws : List Nat) :
    decode_hit_tot_adcs header ws = specHitDecode header ws := by
  cases ws with
  | nil => rfl
  | cons multi rest =>
    show (match decodeAdcLoop ((multi >>> 28) &&& 0xf) true ((multi &&& 0xffff) <<< 16) rest [] with
      | none => none
      | some (adc_data, rest') =>
        some (RawFrame.hit header ((multi >>> 16) &&& 0xfff) adc_data, rest')) =
      (match specShiftLoop ((multi >>> 28) &&& 0xf) 1 ((multi &&& 0xffff) <<< 16) rest [] with
      | none => none
      | some (acc, rest') =>
        some (RawFrame.hit header ((multi >>> 16) &&& 0xfff) acc, rest'))
    rw [specShiftLoop_eq_decodeAdcLoop]
    have hb : (1 % 2 == 1) = true := rfl
    rw [hb]

/-! ### Claim C3 -/

theorem insertTwoZeros_length (l : List Nat) (i : Nat) :
    (insertTwoZeros l i).length = l.length + 2 := by
  simp only [insertTwoZeros, List.length_append, List.length_take, List.length_cons,
    List.length_drop]
  omega

theorem foldl_insertTwoZeros_length :
    ∀ (idxs : List Nat) (l : List Nat),
      (idxs.foldl insertTwoZeros l).length = l.length + 2 * idxs.length := by
  intro idxs
  induction idxs with
  | nil => intro l; simp
  | cons i rest ih =>
    intro l
    rw [List.foldl_cons, ih, insertTwoZeros_length]
    simp only [List.length_cons]
    omega

/-- C3 (amended): `fix_hitbuffer_data` inserts two zero bytes at offset 1024
and then at each further multiple of 1024 of the current buffer, but the
iteration bound is the ORIGINAL input length, captured once before any
insertion (not the growing buffer length); hence the output length is the
input length plus 2 * k with k the number of positive multiples of 1024
strictly below the original length, i.e. k = (len - 1) / 1024, plus 0-3
padding bytes to the next multiple of 4. -/
theorem C3_repair_length (data : List Nat) :
    (fix_hitbuffer_data data).length =
      data.length + 2 * ((data.length - 1) / 1024) +
        (4 - (data.length + 2 * ((data.length - 1) / 1024)) % 4) % 4 := by
  simp only [fix_hitbuffer_data, List.length_append, List.length_replicate,
    foldl_insertTwoZeros_length, List.length_range']

/-- C3 counterexample: on an input of 3072 zero bytes the code performs two
insertions (at offsets 1024 and 2048; offset 3072 is not strictly below the
original length), giving output length 3076 with no padding, while the
claim's cumulative rule `specCumulativeK` counts k = 3 boundaries (the
third offset 3072 lies within the grown length 3076) and so predicts
3072 + 2 * 3 + 2 = 3080. -/
theorem C3_counterexample :
    (fix_hitbuffer_data (List.replicate 3072 0)).length = 3076 ∧
    specCumulativeK 3072 = 3 ∧
    (3076 : Nat) ≠ 3072 + 2 * specCumulativeK 3072 +
      (4 - (3072 + 2 * specCumulativeK 3072) % 4) % 4 := by
  refine ⟨?_, by decide, by decide⟩
  simp only [fix_hitbuffer_data, List.length_append, List.length_replicate,
    foldl_insertTwoZeros_length, List.length_range']

/-! ### Claim C4 -/

/-- C4: the frame kind is selected by the exact value of the top byte of the
header word (0xE4 PpsYear, 0xE0 PpsSecond, 0xE5 TriggerConfig, 0xE6
DataFormat); every other top-byte value of a 32-bit word — including the
reserved codes 0xE7, 0xF0-0xFF and the masked variants 0xE1-0xE3 — falls
through to Hit decoding (the guard `frame_type < 0xdfffffff` always holds
since the top byte is below 256); PpsYear, PpsSecond and DataFormat consume
zero extra words and TriggerConfig consumes exactly one (the offset). -/
theorem C4_dispatch_top_byte (header : Nat) (h32 : header < 4294967296) (ws : List Nat) :
    (header >>> 24 = 0xe4 → decodeFrames (header :: ws) =
        consFrame (RawFrame.ppsYear (header &&& 0xffff)) (decodeFrames ws))
    ∧ (header >>> 24 = 0xe0 → decodeFrames (header :: ws) =
        consFrame (RawFrame.ppsSecond (header &&& 0x03ffffff)) (decodeFrames ws))
    ∧ (header >>> 24 = 0xe5 → decodeFrames (header :: ws) =
        (match ws with
          | [] => ([], false)
          | offset :: rest =>
            consFrame (RawFrame.triggerConf (header &&& 0xffff) ((header >>> 16) &&& 0xff) offset)
              (decodeFrames rest)))
    ∧ (header >>> 24 = 0xe6 → decodeFrames (header :: ws) =
        consFrame (RawFrame.dataFormat ((header >>> 16) &&& 0xff) (header &&& 0xffff))
          (decodeFrames ws))
    ∧ (header >>> 24 ≠ 0xe4 → header >>> 24 ≠ 0xe0 → header >>> 24 ≠ 0xe5 →
        header >>> 24 ≠ 0xe6 →
        decodeFrames (header :: ws) =
          (match decode_hit_tot_adcs header ws with
            | none => ([], false)
            | some (f, rest) => consFrame f (decodeFrames rest))) := by
  have hlt : header >>> 24 < 0xdfffffff := by
    have hpow : (2 : Nat) ^ 24 = 16777216 := by norm_num
    have h8 : header >>> 24 < 256 := by
      rw [Nat.shiftRight_eq_div_pow, hpow]
      omega
    omega
  refine ⟨?_, ?_, ?_, ?_, ?_⟩
  · intro h1
    rw [decodeFrames_cons, if_pos (show header >>> 24 = OBJECT_CODE_PPS_YEAR from h1)]
    rfl
  · intro h2
    rw [decodeFrames_cons, if_neg (show ¬header >>> 24 = OBJECT_CODE_PPS_YEAR by
        rw [h2]; decide),
      if_pos (show header >>> 24 = OBJECT_CODE_PPS_SECOND from h2)]
    rfl
  · intro h3
    rw [decodeFrames_cons,
      if_neg (show ¬header >>> 24 = OBJECT_CODE_PPS_YEAR by rw [h3]; decide),
      if_neg (show ¬header >>> 24 = OBJECT_CODE_PPS_SECOND by rw [h3]; decide),
      if_pos (show header >>> 24 = OBJECT_CODE_TRIG_CONFIG from h3)]
    cases ws <;> rfl
  · intro h4
    rw [decodeFrames_cons,
      if_neg (show ¬header >>> 24 = OBJECT_CODE_PPS_YEAR by rw [h4]; decide),
      if_neg (show ¬header >>> 24 = OBJECT_CODE_PPS_SECOND by rw [h4]; decide),
      if_neg (show ¬header >>> 24 = OBJECT_CODE_TRIG_CONFIG by rw [h4]; decide),
      if_pos (show header >>> 24 = OBJECT_CODE_DATA_FORMAT from h4)]
    rfl
  · intro h1 h2 h3 h4
    rw [decodeFrames_cons,
      if_neg (show ¬header >>> 24 = OBJECT_CODE_PPS_YEAR from h1),
      if_neg (show ¬header >>> 24 = OBJECT_CODE_PPS_SECOND from h2),
      if_neg (show ¬header >>> 24 = OBJECT_CODE_TRIG_CONFIG from h3),
      if_neg (show ¬header >>> 24 = OBJECT_CODE_DATA_FORMAT from h4),
      if_pos hlt]

/-- C4 witness: the reserved page-end code 0xE7 in the top byte is decoded
as a Hit frame. -/
theorem C4_dispatch_top_byte_witness :
    decodeFrames [0xe7123456, 0x10050003] =
      (match decode_hit_tot_adcs 0xe7123456 [0x10050003] with
        | none => ([], false)
        | some (f, rest) => consFrame f (decodeFrames rest)) :=
  (C4_dispatch_top_byte 0xe7123456 (by decide) [0x10050003]).2.2.2.2
    (by decide) (by decide) (by decide) (by decide)

/-! ### Claim C5 -/

theorem combineFrames_eq_specCombine :
    ∀ (fs : List RawFrame) (canon : AdcMap) (ign : Bool) (st : Int × Int × Bool),
      combineFrames fs canon ign st.1 st.2.1 st.2.2 = specCombine fs canon ign st := by
  intro fs
  induction fs with
  | nil => intro canon ign st; rfl
  | cons f rest ih =>
    intro canon ign st
    obtain ⟨y, sec, c⟩ := st
    cases f with
    | ppsYear yy => exact ih canon ign (Int.ofNat yy, sec, c)
    | ppsSecond ss => exact ih canon ign (y, Int.ofNat ss, c)
    | triggerConf rc mode off =>
      exact ih canon ign (y, sec, rc &&& STATUS_CPUTRIG_ACTIVE != 0)
    | dataFormat a b => exact ih canon ign (y, sec, c)
    | hit off tot adc =>
      have ih' : combineFrames rest canon ign y sec c =
          specCombine rest canon ign (specAccumStep (y, sec, c) (RawFrame.hit off tot adc)) :=
        ih canon ign (y, sec, c)
      simp only [combineFrames, specCombine]
      split
      · rw [← ih']
        cases hres : combineFrames rest canon ign y sec c <;> rfl
      · cases ign with
        | false => rfl
        | true => exact ih canon true (y, sec, c)

theorem foldl_specAccumStep_year :
    ∀ (fs : List RawFrame) (st : Int × Int × Bool),
      (fs.foldl specAccumStep st).1 = (fs.filterMap ppsYearValue).getLastD st.1 := by
  intro fs
  induction fs with
  | nil => intro st; rfl
  | cons f rest ih =>
    intro st
    obtain ⟨a, b, c⟩ := st
    cases f with
    | ppsYear y =>
      simp only [List.foldl_cons, specAccumStep]
      rw [ih (Int.ofNat y, b, c)]
      show (rest.filterMap ppsYearValue).getLastD (Int.ofNat y) =
        ((RawFrame.ppsYear y :: rest).filterMap ppsYearValue).getLastD a
      simp only [List.filterMap_cons, ppsYearValue]
      rw [List.getLastD_cons]
    | ppsSecond ss =>
      simp only [List.foldl_cons, specAccumStep]
      rw [ih (a, Int.ofNat ss, c)]
      simp [ppsYearValue, List.filterMap_cons]
    | triggerConf rc mode off =>
      simp only [List.foldl_cons, specAccumStep]
      rw [ih (a, b, rc &&& STATUS_CPUTRIG_ACTIVE != 0)]
      simp [ppsYearValue, List.filterMap_cons]
    | dataFormat u v =>
      simp only [List.foldl_cons, specAccumStep]
      rw [ih (a, b, c)]
      simp [ppsYearValue, List.filterMap_cons]
    | hit off tot adc =>
      simp only [List.foldl_cons, specAccumStep]
      rw [ih (a, b, c)]
      simp [ppsYearValue, List.filterMap_cons]

theorem foldl_specAccumStep_second :
    ∀ (fs : List RawFrame) (st : Int × Int × Bool),
      (fs.foldl specAccumStep st).2.1 = (fs.filterMap ppsSecondValue).getLastD st.2.1 := by
  intro fs
  induction fs with
  | nil => intro st; rfl
  | cons f rest ih =>
    intro st
    obtain ⟨a, b, c⟩ := st
    cases f with
    | ppsYear y =>
      simp only [List.foldl_cons, specAccumStep]
      rw [ih (Int.ofNat y, b, c)]
      simp [ppsSecondValue, List.filterMap_cons]
    | ppsSecond ss =>
      simp only [List.foldl_cons, specAccumStep]
      rw [ih (a, Int.ofNat ss, c)]
      show (rest.filterMap ppsSecondValue).getLastD (Int.ofNat ss) =
        ((RawFrame.ppsSecond ss :: rest).filterMap ppsSecondValue).getLastD b
      simp only [List.filterMap_cons, ppsSecondValue]
      rw [List.getLastD_cons]
    | triggerConf rc mode off =>
      simp only [List.foldl_cons, specAccumStep]
      rw [ih (a, b, rc &&& STATUS_CPUTRIG_ACTIVE != 0)]
      simp [ppsSecondValue, List.filterMap_cons]
    | dataFormat u v =>
      simp only [List.foldl_cons, specAccumStep]
      rw [ih (a, b, c)]
      simp [ppsSecondValue, List.filterMap_cons]
    | hit off tot adc =>
      simp only [List.foldl_cons, specAccumStep]
      rw [ih (a, b, c)]
      simp [ppsSecondValue, List.filterMap_cons]

theorem foldl_specAccumStep_cpu :
    ∀ (fs : List RawFrame) (st : Int × Int × Bool),
      (fs.foldl specAccumStep st).2.2 = (fs.filterMap trigCpuValue).getLastD st.2.2 := by
  intro fs
  induction fs with
  | nil => intro st; rfl
  | cons f rest ih =>
    intro st
    obtain ⟨a, b, c⟩ := st
    cases f with
    | ppsYear y =>
      simp only [List.foldl_cons, specAccumStep]
      rw [ih (Int.ofNat y, b, c)]
      simp [trigCpuValue, List.filterMap_cons]
    | ppsSecond ss =>
      simp only [List.foldl_cons, specAccumStep]
      rw [ih (a, Int.ofNat ss, c)]
      simp [trigCpuValue, List.filterMap_cons]
    | triggerConf rc mode off =>
      simp only [List.foldl_cons, specAccumStep]
      rw [ih (a, b, rc &&& STATUS_CPUTRIG_ACTIVE != 0)]
      show (rest.filterMap trigCpuValue).getLastD (rc &&& STATUS_CPUTRIG_ACTIVE != 0) =
        ((RawFrame.triggerConf rc mode off :: rest).filterMap trigCpuValue).getLastD c
      simp only [List.filterMap_cons, trigCpuValue]
      rw [List.getLastD_cons]
    | dataFormat u v =>
      simp only [List.foldl_cons, specAccumStep]
      rw [ih (a, b, c)]
      simp [trigCpuValue, List.filterMap_cons]
    | hit off tot adc =>
      simp only [List.foldl_cons, specAccumStep]
      rw [ih (a, b, c)]
      simp [trigCpuValue, List.filterMap_cons]

/-- C5: the accumulator is a left-to-right fold starting from
(year = -1, second = -1, cpu_trigger = false): the code's combine loop
`combineFrames` coincides with the fold transcribed from the spec
(`specCombine`, stepping with `specAccumStep`, in which PpsYear sets year,
PpsSecond sets second, TriggerConfig sets cpu_trigger to bit 5 of its
status bits, DataFormat changes nothing, and every emitted hit is built
from the state values in effect at its position); moreover, after folding
any frame prefix the state holds the value of the most recent
PpsYear/PpsSecond/TriggerConfig frame of that prefix, or the sentinel
-1 / -1 / false if none occurred. -/
theorem C5_accumulator_fold :
    (∀ (fs : List RawFrame) (canon : AdcMap) (ign : Bool) (st : Int × Int × Bool),
      combineFrames fs canon ign st.1 st.2.1 st.2.2 = specCombine fs canon ign st)
    ∧ (∀ fs : List RawFrame,
      (fs.foldl specAccumStep (-1, -1, false)).1 =
        (fs.filterMap ppsYearValue).getLastD (-1))
    ∧ (∀ fs : List RawFrame,
      (fs.foldl specAccumStep (-1, -1, false)).2.1 =
        (fs.filterMap ppsSecondValue).getLastD (-1))
    ∧ (∀ fs : List RawFrame,
      (fs.foldl specAccumStep (-1, -1, false)).2.2 =
        (fs.filterMap trigCpuValue).getLastD false) :=
  ⟨combineFrames_eq_specCombine,
    fun fs => foldl_specAccumStep_year fs (-1, -1, false),
    fun fs => foldl_specAccumStep_second fs (-1, -1, false),
    fun fs => foldl_specAccumStep_cpu fs (-1, -1, false)⟩

/-! ### Claim C6 -/

/-- C6: for all integers second and offset,
resolve(second, offset) = second * 10_000_000_000 + floor(offset * 125 / 36)
with the floor taken over exact rational arithmetic — the code's Python
`//` is exact integer floor division and `int(1e10)` is exactly
10_000_000_000, so no floating point enters the result. -/
theorem C6_resolve_time (second offset : Int) :
    resolve_time_10th_ns second offset =
      second * 10000000000 + ⌊((offset : ℚ) * 125) / 36⌋ := by
  show second * 10000000000 + Int.fdiv (offset * 125) 36 = _
  congr 1
  have hcast : ((offset : ℚ) * 125) / 36 = (((offset * 125 : ℤ) : ℚ)) / ((36 : ℕ) : ℚ) := by
    push_cast
    ring
  rw [Int.fdiv_eq_ediv _ (by norm_num), hcast, Rat.floor_intCast_div_natCast]
  norm_num

/-! ### Claims C7 - C10 -/

theorem keySetEq_refl (d : AdcMap) : keySetEq d d = true := by
  simp only [keySetEq, Bool.and_eq_true, List.all_eq_true]
  constructor <;>
    (intro p hp
     simp only [List.any_eq_true]
     exact ⟨p, hp, by simp⟩)

theorem firstHitAdc_mem :
    ∀ {fs : List RawFrame} {adc : AdcMap}, firstHitAdc fs = some adc →
      ∃ off tot, RawFrame.hit off tot adc ∈ fs := by
  intro fs
  induction fs with
  | nil => intro adc h; exact absurd h (by simp [firstHitAdc])
  | cons f rest ih =>
    intro adc h
    cases f with
    | hit off tot a =>
      have ha : a = adc := by
        have h' : some a = some adc := h
        injection h'
      exact ⟨off, tot, by rw [← ha]; exact List.mem_cons_self _ _⟩
    | ppsYear y =>
      obtain ⟨off, tot, hmem⟩ := ih h
      exact ⟨off, tot, List.mem_cons_of_mem _ hmem⟩
    | ppsSecond sec =>
      obtain ⟨off, tot, hmem⟩ := ih h
      exact ⟨off, tot, List.mem_cons_of_mem _ hmem⟩
    | triggerConf rc mode o =>
      obtain ⟨off, tot, hmem⟩ := ih h
      exact ⟨off, tot, List.mem_cons_of_mem _ hmem⟩
    | dataFormat a b =>
      obtain ⟨off, tot, hmem⟩ := ih h
      exact ⟨off, tot, List.mem_cons_of_mem _ hmem⟩

theorem combineFrames_ok_nonempty :
    ∀ (fs : List RawFrame) (canon : AdcMap) (ign : Bool) (y s : Int) (c : Bool)
      (hits : List Hit),
      (∃ off tot adc, RawFrame.hit off tot adc ∈ fs ∧ keySetEq adc canon = true) →
      combineFrames fs canon ign y s c = Except.ok hits → hits ≠ [] := by
  intro fs
  induction fs with
  | nil =>
    rintro canon ign y s c hits ⟨off, tot, adc, hmem, _⟩ hok
    exact absurd hmem (List.not_mem_nil _)
  | cons f rest ih =>
    rintro canon ign y s c hits ⟨off, tot, adc, hmem, hkey⟩ hok
    cases f with
    | ppsYear yy =>
      have hmem' : RawFrame.hit off tot adc ∈ rest := by
        rcases List.mem_cons.mp hmem with h | h
        · exact absurd h (by simp)
        · exact h
      exact ih canon ign (Int.ofNat yy) s c hits ⟨off, tot, adc, hmem', hkey⟩ hok
    | ppsSecond ss =>
      have hmem' : RawFrame.hit off tot adc ∈ rest := by
        rcases List.mem_cons.mp hmem with h | h
        · exact absurd h (by simp)
        · exact h
      exact ih canon ign y (Int.ofNat ss) c hits ⟨off, tot, adc, hmem', hkey⟩ hok
    | triggerConf rc mode o =>
      have hmem' : RawFrame.hit off tot adc ∈ rest := by
        rcases List.mem_cons.mp hmem with h | h
        · exact absurd h (by simp)
        · exact h
      exact ih canon ign y s (rc &&& STATUS_CPUTRIG_ACTIVE != 0) hits
        ⟨off, tot, adc, hmem', hkey⟩ hok
    | dataFormat a b =>
      have hmem' : RawFrame.hit off tot adc ∈ rest := by
        rcases List.mem_cons.mp hmem with h | h
        · exact absurd h (by simp)
        · exact h
      exact ih canon ign y s c hits ⟨off, tot, adc, hmem', hkey⟩ hok
    | hit off2 tot2 adc2 =>
      simp only [combineFrames] at hok
      cases hk2 : keySetEq adc2 canon with
      | true =>
        rw [if_pos hk2] at hok
        cases hres : combineFrames rest canon ign y s c with
        | error e => rw [hres] at hok; exact absurd hok (by simp)
        | ok hs =>
          rw [hres] at hok
          simp only [Except.ok.injEq] at hok
          rw [← hok]
          simp
      | false =>
        rw [if_neg (by simp [hk2])] at hok
        cases ign with
        | false => exact absurd hok (by simp)
        | true =>
          have hmem' : RawFrame.hit off tot adc ∈ rest := by
            rcases List.mem_cons.mp hmem with h | h
            · have h3 : adc = adc2 := by injection h
              rw [h3] at hkey
              rw [hkey] at hk2
              exact absurd hk2 (by simp)
            · exact h
          exact ih canon true y s c hits ⟨off, tot, adc, hmem', hkey⟩ hok

theorem combineFrames_strict_error :
    ∀ (fs : List RawFrame) (canon : AdcMap) (y s : Int) (c : Bool),
      (∃ off tot adc, RawFrame.hit off tot adc ∈ fs ∧ keySetEq adc canon = false) →
      combineFrames fs canon false y s c = Except.error DecodeError.inconsistentChannels := by
  intro fs
  induction fs with
  | nil =>
    rintro canon y s c ⟨off, tot, adc, hmem, _⟩
    exact absurd hmem (List.not_mem_nil _)
  | cons f rest ih =>
    rintro canon y s c ⟨off, tot, adc, hmem, hkey⟩
    cases f with
    | ppsYear yy =>
      have hmem' : RawFrame.hit off tot adc ∈ rest := by
        rcases List.mem_cons.mp hmem with h | h
        · exact absurd h (by simp)
        · exact h
      exact ih canon (Int.ofNat yy) s c ⟨off, tot, adc, hmem', hkey⟩
    | ppsSecond ss =>
      have hmem' : RawFrame.hit off tot adc ∈ rest := by
        rcases List.mem_cons.mp hmem with h | h
        · exact absurd h (by simp)
        · exact h
      exact ih canon y (Int.ofNat ss) c ⟨off, tot, adc, hmem', hkey⟩
    | triggerConf rc mode o =>
      have hmem' : RawFrame.hit off tot adc ∈ rest := by
        rcases List.mem_cons.mp hmem with h | h
        · exact absurd h (by simp)
        · exact h
      exact ih canon y s (rc &&& STATUS_CPUTRIG_ACTIVE != 0) ⟨off, tot, adc, hmem', hkey⟩
    | dataFormat a b =>
      have hmem' : RawFrame.hit off tot adc ∈ rest := by
        rcases List.mem_cons.mp hmem with h | h
        · exact absurd h (by simp)
        · exact h
      exact ih canon y s c ⟨off, tot, adc, hmem', hkey⟩
    | hit off2 tot2 adc2 =>
      simp only [combineFrames]
      cases hk2 : keySetEq adc2 canon with
      | false => rfl
      | true =>
        rw [if_pos rfl]
        have hmem' : RawFrame.hit off tot adc ∈ rest := by
          rcases List.mem_cons.mp hmem with h | h
          · have h3 : adc = adc2 := by injection h
            rw [h3] at hkey
            rw [hkey] at hk2
            exact absurd hk2 (by simp)
          · exact h
        rw [ih canon y s c ⟨off, tot, adc, hmem', hkey⟩]

theorem combineFrames_tolerant_filter :
    ∀ (fs : List RawFrame) (canon : AdcMap) (y s : Int) (c : Bool),
      combineFrames fs canon true y s c =
        combineFrames (fs.filter (keepFrame canon)) canon true y s c := by
  intro fs
  induction fs with
  | nil => intro canon y s c; rfl
  | cons f rest ih =>
    intro canon y s c
    cases f with
    | ppsYear yy => exact ih canon (Int.ofNat yy) s c
    | ppsSecond ss => exact ih canon y (Int.ofNat ss) c
    | triggerConf rc mode o => exact ih canon y s (rc &&& STATUS_CPUTRIG_ACTIVE != 0)
    | dataFormat a b => exact ih canon y s c
    | hit off tot adc =>
      cases hk : keySetEq adc canon with
      | true =>
        rw [List.filter_cons_of_pos (by simp [keepFrame, hk])]
        simp only [combineFrames]
        rw [if_pos hk, if_pos hk, ih canon y s c]
      | false =>
        rw [List.filter_cons_of_neg (by simp [keepFrame, hk])]
        simp only [combineFrames]
        rw [if_neg (by simp [hk])]
        exact ih canon y s c

/-- C7: a Hit frame whose channel-key set differs from the canonical one
makes strict-mode folding fail with InconsistentChannels; tolerant-mode
folding equals folding with exactly the mismatched hit frames filtered out
(so that hit is dropped and folding continues); concretely, a buffer with
one matching and one mismatched Hit frame fails with InconsistentChannels
in strict mode and yields only the matching hit in tolerant mode. -/
theorem C7_inconsistent_channels :
    (∀ (fs : List RawFrame) (canon : AdcMap) (y s : Int) (c : Bool),
      (∃ off tot adc, RawFrame.hit off tot adc ∈ fs ∧ keySetEq adc canon = false) →
      combineFrames fs canon false y s c = Except.error DecodeError.inconsistentChannels)
    ∧ (∀ (fs : List RawFrame) (canon : AdcMap) (y s : Int) (c : Bool),
      combineFrames fs canon true y s c =
        combineFrames (fs.filter (keepFrame canon)) canon true y s c)
    ∧ decode_hitbuffer [100, 0x1005000A, 200, 0x10073002] false =
        Except.error DecodeError.inconsistentChannels
    ∧ decode_hitbuffer [100, 0x1005000A, 200, 0x10073002] true =
        Except.ok [⟨-1, -9999999653, [(0, 10)], 5, false⟩] :=
  ⟨combineFrames_strict_error, combineFrames_tolerant_filter, by decide, by decide⟩

/-- C7 witness: a single mismatched hit frame makes strict folding fail. -/
theorem C7_inconsistent_channels_witness :
    combineFrames [RawFrame.hit 200 7 [(3, 2)]] [(0, 10)] false (-1) (-1) false =
      Except.error DecodeError.inconsistentChannels :=
  C7_inconsistent_channels.1 [RawFrame.hit 200 7 [(3, 2)]] [(0, 10)] (-1) (-1) false
    ⟨200, 7, [(3, 2)], by decide, by decide⟩

/-- C8: when the word stream is exhausted while a frame decoder still
expects more words, strict decode fails with IncompleteFrame, while
tolerant decode swallows the failure and folds the frames completely
decoded before the truncation point (failing with NoHitFrame only when no
complete hit frame exists among them). -/
theorem C8_truncated_buffer (ws : List Nat) (h : (decodeFrames ws).2 = false) :
    decode_hitbuffer ws false = Except.error DecodeError.incompleteFrame
    ∧ decode_hitbuffer ws true =
        (match firstHitAdc (decodeFrames ws).1 with
          | none => Except.error DecodeError.noHitFrame
          | some canon => combineFrames (decodeFrames ws).1 canon true (-1) (-1) false) := by
  constructor
  · simp [decode_hitbuffer, h]
  · simp [decode_hitbuffer, h]

/-- C8 witness: a buffer holding one complete hit frame followed by a hit
frame truncated inside its channel data: strict mode fails with
IncompleteFrame, tolerant mode returns the one complete hit. -/
theorem C8_truncated_buffer_witness :
    decode_hitbuffer [100, 0x1005000A, 200, 0x30050007] false =
        Except.error DecodeError.incompleteFrame
    ∧ decode_hitbuffer [100, 0x1005000A, 200, 0x30050007] true =
        Except.ok [⟨-1, -9999999653, [(0, 10)], 5, false⟩] := by
  have h := C8_truncated_buffer [100, 0x1005000A, 200, 0x30050007] (by decide)
  refine ⟨h.1, ?_⟩
  rw [h.2]
  decide

/-- C9 (amended): a buffer whose decoded frame sequence contains no Hit
frame fails with NoHitFrame in tolerant mode unconditionally, and in strict
mode whenever the frame sequence decoded completely; a truncated no-hit
buffer fails in strict mode with IncompleteFrame instead. -/
theorem C9_no_hit_frame (ws : List Nat)
    (h : firstHitAdc (decodeFrames ws).1 = none) :
    decode_hitbuffer ws true = Except.error DecodeError.noHitFrame
    ∧ ((decodeFrames ws).2 = true →
        decode_hitbuffer ws false = Except.error DecodeError.noHitFrame) := by
  constructor
  · simp [decode_hitbuffer, h]
  · intro hc
    simp [decode_hitbuffer, h, hc]

/-- C9 witness: a buffer holding a single complete PpsYear frame fails with
NoHitFrame in both modes. -/
theorem C9_no_hit_frame_witness :
    decode_hitbuffer [0xe40007E8] true = Except.error DecodeError.noHitFrame ∧
    decode_hitbuffer [0xe40007E8] false = Except.error DecodeError.noHitFrame := by
  have h := C9_no_hit_frame [0xe40007E8] (by decide)
  exact ⟨h.1, h.2 (by decide)⟩

/-- C9 counterexample: the one-word buffer [0xe5000000] (a TriggerConfig
header whose offset word is missing) decodes to a frame sequence with no
hit frame, yet strict decode fails with IncompleteFrame, not NoHitFrame. -/
theorem C9_counterexample :
    firstHitAdc (decodeFrames [0xe5000000]).1 = none ∧
    decode_hitbuffer [0xe5000000] false = Except.error DecodeError.incompleteFrame ∧
    (Except.error DecodeError.incompleteFrame : Except DecodeError (List Hit)) ≠
      Except.error DecodeError.noHitFrame :=
  ⟨by decide, by decide, by decide⟩

/-- C10: whenever decode returns normally in either mode, the returned hit
list is non-empty: the canonical channel-key set is that of the first hit
frame, which therefore always passes the consistency check and produces an
output hit. -/
theorem C10_decode_ok_nonempty (ws : List Nat) (ign : Bool) (hits : List Hit)
    (h : decode_hitbuffer ws ign = Except.ok hits) : hits ≠ [] := by
  simp only [decode_hitbuffer] at h
  by_cases hcond : (!(decodeFrames ws).2 && !ign) = true
  · rw [if_pos hcond] at h
    exact absurd h (by simp)
  · rw [if_neg hcond] at h
    cases hfa : firstHitAdc (decodeFrames ws).1 with
    | none =>
      rw [hfa] at h
      exact absurd h (by simp)
    | some canon =>
      rw [hfa] at h
      obtain ⟨off, tot, hmem⟩ := firstHitAdc_mem hfa
      exact combineFrames_ok_nonempty _ canon ign (-1) (-1) false hits
        ⟨off, tot, canon, hmem, keySetEq_refl canon⟩ h

/-- C10 witness: a buffer with one hit frame decodes to a singleton hit
list, which the theorem confirms is non-empty. -/
theorem C10_decode_ok_nonempty_witness :
    ([⟨-1, -9999999653, [(0, 10)], 5, false⟩] : List Hit) ≠ [] :=
  C10_decode_ok_nonempty [100, 0x1005000A] false _ (by decide)

end Udaq
